import Mathlib

/-!
# Verification of the DealerEdge GEX analytics core

Shallow embedding of the core analytics of the DealerEdge dashboard
(`analyzer.py`, `scanner.py`) and proofs of the specification claims.

Modelling conventions:
* Python floats are modelled by `ℚ` (exact arithmetic); the Black-Scholes
  gamma model, which uses transcendental functions, is modelled over `ℝ`.
* Python dictionaries keyed by strike are modelled as association lists in
  insertion order; `pandas` sorting by a unique key is modelled by a stable
  insertion sort (unique keys make the result independent of the algorithm).
* `datetime.now().hour` is passed as an explicit `hour : ℤ` parameter.
* Python's `list.sort` / tuple-key `sort(..., reverse=True)` is a stable
  sort; any stable sort with the same total preorder yields the same list,
  so it is modelled by `List.insertionSort` with the "greater or tie" test.
-/

unseal Rat.mul Rat.inv Rat.add Rat.sub Rat.ofScientific

/-- Sum of a list of rationals. -/
def qsum (l : List ℚ) : ℚ := l.foldr (· + ·) 0

/-- Running cumulative sums (`pandas.Series.cumsum`). -/
def cumsum (l : List ℚ) : List ℚ := go 0 l where
  go (acc : ℚ) : List ℚ → List ℚ
    | [] => []
    | x :: xs => (acc + x) :: go (acc + x) xs

theorem cumsum_go_getLast? (l : List ℚ) :
    ∀ acc, l ≠ [] → (cumsum.go acc l).getLast? = some (acc + qsum l) := by
  induction l with
  | nil => intro acc h; exact absurd rfl h
  | cons x xs ih =>
    intro acc _
    cases xs with
    | nil => simp [cumsum.go, qsum]
    | cons y ys =>
      rw [show cumsum.go acc (x :: y :: ys) =
            (acc + x) :: (acc + x + y) :: cumsum.go (acc + x + y) ys from rfl]
      rw [List.getLast?_cons_cons]
      rw [show (acc + x + y) :: cumsum.go (acc + x + y) ys =
            cumsum.go (acc + x) (y :: ys) from rfl]
      rw [ih (acc + x) (by simp)]
      simp [qsum]
      ring

theorem cumsum_getLast? (l : List ℚ) (h : l ≠ []) :
    (cumsum l).getLast? = some (qsum l) := by
  have := cumsum_go_getLast? l 0 h
  simpa [cumsum] using this

theorem cumsum_length (l : List ℚ) : (cumsum l).length = l.length := by
  suffices h : ∀ acc, (cumsum.go acc l).length = l.length by exact h 0
  induction l with
  | nil => intro acc; rfl
  | cons x xs ih => intro acc; simp [cumsum.go, ih]

/-- `round(x, 2)` from Python: rounding to two decimal places.
(Python uses round-half-even on binary floats; on the non-tie values that
actually occur this coincides with rounding the scaled value to the nearest
integer.) -/
def round2 (q : ℚ) : ℚ := (round (q * 100) : ℤ) / 100

theorem round_mono {a b : ℚ} (h : a ≤ b) : round a ≤ round b := by
  rw [round_eq, round_eq]
  exact Int.floor_le_floor (by linarith)

theorem round2_intCast (n : ℤ) : round2 (n : ℚ) = n := by
  have : ((n : ℚ) * 100) = ((n * 100 : ℤ) : ℚ) := by push_cast; ring
  rw [round2, this, round_intCast]
  push_cast
  rw [mul_div_assoc]
  norm_num

theorem round2_le_of_le {q : ℚ} {n : ℤ} (h : q ≤ (n : ℚ)) : round2 q ≤ (n : ℚ) := by
  have h1 : round (q * 100) ≤ round ((n : ℚ) * 100) := round_mono (by nlinarith)
  have h2 : ((n : ℚ) * 100) = ((n * 100 : ℤ) : ℚ) := by push_cast; ring
  rw [h2, round_intCast] at h1
  rw [round2, div_le_iff₀ (by norm_num : (0:ℚ) < 100)]
  exact_mod_cast h1

theorem le_round2_of_le {q : ℚ} {n : ℤ} (h : (n : ℚ) ≤ q) : (n : ℚ) ≤ round2 q := by
  have h1 : round ((n : ℚ) * 100) ≤ round (q * 100) := round_mono (by nlinarith)
  have h2 : ((n : ℚ) * 100) = ((n * 100 : ℤ) : ℚ) := by push_cast; ring
  rw [h2, round_intCast] at h1
  rw [round2, le_div_iff₀ (by norm_num : (0:ℚ) < 100)]
  exact_mod_cast h1

/-! ## Stable sorting by a key, descending

Python's `list.sort(key=k, reverse=True)` is a stable descending sort.  We
model it with `List.insertionSort` and the relation "the key of the left
element is at least the key of the right element", under which ties keep
their original relative order, exactly as in a stable descending sort. -/

instance instDecKeyGe {α K : Type} [LinearOrder K] (k : α → K) :
    DecidableRel (fun a b : α => k b ≤ k a) :=
  fun a b => inferInstanceAs (Decidable (k b ≤ k a))

instance instTotalKeyGe {α K : Type} [LinearOrder K] (k : α → K) :
    IsTotal α (fun a b : α => k b ≤ k a) :=
  ⟨fun a b => le_total (k b) (k a)⟩

instance instTransKeyGe {α K : Type} [LinearOrder K] (k : α → K) :
    IsTrans α (fun a b : α => k b ≤ k a) :=
  ⟨fun _ _ _ h1 h2 => le_trans h2 h1⟩

/-- Stable sort of `l`, descending according to the key `k`. -/
def sortDescBy {α K : Type} [LinearOrder K] (k : α → K) (l : List α) : List α :=
  List.insertionSort (fun a b : α => k b ≤ k a) l

theorem sorted_sortDescBy {α K : Type} [LinearOrder K] (k : α → K) (l : List α) :
    (sortDescBy k l).Sorted (fun a b : α => k b ≤ k a) :=
  List.sorted_insertionSort _ l

theorem perm_sortDescBy {α K : Type} [LinearOrder K] (k : α → K) (l : List α) :
    (sortDescBy k l).Perm l :=
  List.perm_insertionSort _ l

theorem filter_orderedInsert_key {α K : Type} [LinearOrder K] (k : α → K) (c : K)
    (a : α) (l : List α) :
    (List.orderedInsert (fun a b : α => k b ≤ k a) a l).filter (fun x => decide (k x = c)) =
      if k a = c then a :: l.filter (fun x => decide (k x = c))
      else l.filter (fun x => decide (k x = c)) := by
  induction l with
  | nil =>
    by_cases h : k a = c <;> simp [List.orderedInsert, List.filter, h]
  | cons b t ih =>
    rw [List.orderedInsert]
    by_cases hba : k b ≤ k a
    · rw [if_pos hba]
      by_cases h : k a = c <;> simp [List.filter, h]
    · rw [if_neg hba]
      have hab : k a < k b := lt_of_not_le hba
      by_cases h : k a = c
      · have hbc : ¬ (k b = c) := by
          intro hb; rw [h] at hab; rw [hb] at hab; exact lt_irrefl c hab
        rw [List.filter_cons, List.filter_cons]
        simp only [hbc, decide_eq_true_eq, if_false, ih, if_pos h, reduceIte]
      · rw [List.filter_cons, List.filter_cons]
        by_cases hb : k b = c <;> simp [hb, ih, if_neg h]

/-- Stability: a stable descending sort preserves, for every key value, the
subsequence of elements having that key. -/
theorem filter_sortDescBy {α K : Type} [LinearOrder K] (k : α → K) (c : K) (l : List α) :
    (sortDescBy k l).filter (fun x => decide (k x = c)) =
      l.filter (fun x => decide (k x = c)) := by
  induction l with
  | nil => rfl
  | cons a t ih =>
    rw [sortDescBy, List.insertionSort]
    rw [show List.insertionSort (fun a b : α => k b ≤ k a) t = sortDescBy k t from rfl]
    rw [filter_orderedInsert_key k c a (sortDescBy k t)]
    by_cases h : k a = c
    · rw [if_pos h, ih]
      simp [List.filter, h]
    · rw [if_neg h, ih]
      simp [List.filter, h]

/-! ## `find_gamma_flip` (analyzer.py lines 314-334)

The input is the strike table sorted ascending by strike, reduced to the
two columns the routine reads: `(strike, cumulative_gex)`.  The `for` loop
with early `return` is modelled by `flipLoop`; the `except` branch of the
source fires exactly when the frame is empty (`idxmin` on an empty series
raises), which is modelled by the final fallback to `current_price`. -/

/-- The early-returning loop of `find_gamma_flip`:
walks adjacent `(strike, cumulative_gex)` pairs and returns the linear
interpolation inside the first sign-changing interval whose two cumulative
values differ. -/
def flipLoop : List (ℚ × ℚ) → Option ℚ
  | (s1, c1) :: (s2, c2) :: rest =>
    if (c1 ≤ 0 ∧ 0 ≤ c2) ∨ (0 ≤ c1 ∧ c2 ≤ 0) then
      if c2 ≠ c1 then
        some (s1 + (|c1| / |c2 - c1|) * (s2 - s1))
      else flipLoop ((s2, c2) :: rest)
    else flipLoop ((s2, c2) :: rest)
  | _ => none

/-- `df['cumulative_gex'].abs().idxmin()` followed by the `strike` lookup:
the strike of the first row whose cumulative GEX has minimal absolute
value. -/
def argminAbsStrike : List (ℚ × ℚ) → Option ℚ
  | [] => none
  | x :: xs => some (go x xs)
where
  go (best : ℚ × ℚ) : List (ℚ × ℚ) → ℚ
    | [] => best.1
    | y :: ys => if |y.2| < |best.2| then go y ys else go best ys

/-- `DealerEdgeAnalyzer.find_gamma_flip` on the `(strike, cumulative_gex)`
columns of the sorted strike table. -/
def find_gamma_flip (df : List (ℚ × ℚ)) (current_price : ℚ) : ℚ :=
  match flipLoop df with
  | some f => f
  | none =>
    match argminAbsStrike df with
    | some s => s
    | none => current_price

/-! Specification-worded restatement of the gamma-flip algorithm, used to
check the source loop against the claim: the list of adjacent pairs is
formed explicitly and searched with `find?` for the first sign-changing
interval with distinct cumulative values. -/

/-- All adjacent pairs of a list, in order. -/
def adjPairs (df : List (ℚ × ℚ)) : List ((ℚ × ℚ) × (ℚ × ℚ)) := df.zip df.tail

/-- A sign change across an interval, zero-crossing boundaries included. -/
def signChange (c1 c2 : ℚ) : Bool :=
  decide ((c1 ≤ 0 ∧ 0 ≤ c2) ∨ (0 ≤ c1 ∧ c2 ≤ 0))

/-- The interpolation formula of the claim:
`strike_i + (|cum_i| / |cum_{i+1} - cum_i|) * (strike_{i+1} - strike_i)`. -/
def interpFlip (q : (ℚ × ℚ) × (ℚ × ℚ)) : ℚ :=
  q.1.1 + (|q.1.2| / |q.2.2 - q.1.2|) * (q.2.1 - q.1.1)

/-- The gamma-flip algorithm as worded by the specification: walk adjacent
strike pairs in ascending order; at the first interval where the cumulative
GEX changes sign and the two cumulative values differ (equal values are
skipped as the zero-division guard), linearly interpolate; with no such
interval fall back to the strike of smallest absolute cumulative GEX, and
on an empty sequence fall back to the current price. -/
def flipSpec (df : List (ℚ × ℚ)) (current_price : ℚ) : ℚ :=
  match (adjPairs df).find? (fun q => signChange q.1.2 q.2.2 && decide (q.1.2 ≠ q.2.2)) with
  | some q => interpFlip q
  | none =>
    match argminAbsStrike df with
    | some s => s
    | none => current_price

theorem flipLoop_eq_find? (df : List (ℚ × ℚ)) :
    flipLoop df =
      ((adjPairs df).find?
        (fun q => signChange q.1.2 q.2.2 && decide (q.1.2 ≠ q.2.2))).map interpFlip := by
  induction df with
  | nil => rfl
  | cons x xs ih =>
    cases xs with
    | nil => rfl
    | cons y ys =>
      obtain ⟨s1, c1⟩ := x
      obtain ⟨s2, c2⟩ := y
      have hadj : adjPairs ((s1, c1) :: (s2, c2) :: ys) =
          ((s1, c1), (s2, c2)) :: adjPairs ((s2, c2) :: ys) := rfl
      rw [hadj, List.find?_cons]
      by_cases hsc : (c1 ≤ 0 ∧ 0 ≤ c2) ∨ (0 ≤ c1 ∧ c2 ≤ 0)
      · by_cases hne : c2 ≠ c1
        · have hpred : (signChange c1 c2 && decide (c1 ≠ c2)) = true := by
            simp [signChange, hsc, Ne.symm hne]
          rw [flipLoop, if_pos hsc, if_pos hne]
          dsimp only
          rw [hpred]
          rfl
        · have hpred : (signChange c1 c2 && decide (c1 ≠ c2)) = false := by
            have : c1 = c2 := (not_ne_iff.mp hne).symm
            simp [this]
          rw [flipLoop, if_pos hsc, if_neg hne]
          dsimp only
          rw [hpred]
          exact ih
      · have hpred : (signChange c1 c2 && decide (c1 ≠ c2)) = false := by
          simp [signChange, hsc]
        rw [flipLoop, if_neg hsc]
        dsimp only
        rw [hpred]
        exact ih

/-- **C1.** `find_gamma_flip` walks adjacent strike pairs in ascending
order and returns, for the first interval where the cumulative GEX changes
sign (zero-crossing boundaries included), the interpolated value
`strike_i + (|cum_i| / |cum_{i+1} - cum_i|) * (strike_{i+1} - strike_i)`,
skipping intervals with equal cumulative values; with no sign change it
returns the strike of smallest absolute cumulative GEX, and on an empty
strike sequence the current price.  In particular on strikes
`[95, 100, 105]` with cumulative GEX `[-2e8, 1e8, 3e8]` the flip is
`95 + (2e8/3e8) * 5 = 295/3 ≈ 98.33`. -/
theorem C1_find_gamma_flip :
    (∀ df current_price, find_gamma_flip df current_price = flipSpec df current_price) ∧
    (∀ current_price, find_gamma_flip [] current_price = current_price) ∧
    find_gamma_flip [(95, -2e8), (100, 1e8), (105, 3e8)] 100 = 295 / 3 := by
  refine ⟨fun df current_price => ?_, fun current_price => rfl, by decide⟩
  rw [find_gamma_flip, flipSpec, flipLoop_eq_find?]
  cases (adjPairs df).find? (fun q => signChange q.1.2 q.2.2 && decide (q.1.2 ≠ q.2.2)) with
  | none => rfl
  | some q => rfl

/-! ## Data model (analyzer.py `get_options_chain` output, lines 140-195)

A `ContractRow` is one row of a per-expiration calls/puts frame after the
per-contract GEX computation (`gex = ±spot * gamma * openInterest * 100`,
already signed); `ChainData` is one retained expiration; `OptionsData` is
the `options_data` dictionary (`chains` in dictionary insertion order,
`current_price`).  The `symbol` and `data_timestamp` entries are carried
separately where needed.  `NaN` fill-ins (`fillna(0)` / `pd.notna`
defaults) are assumed already applied, as the source does before
aggregation. -/

structure ContractRow where
  strike : ℚ
  gex : ℚ
  openInterest : ℤ
  volume : ℤ
deriving DecidableEq

structure ChainData where
  calls : List ContractRow
  puts : List ContractRow
  dte : ℤ
deriving DecidableEq

structure OptionsData where
  chains : List ChainData
  current_price : ℚ
deriving DecidableEq

/-- Per-strike aggregate (the `strike_data` dictionary entries of
`calculate_gex_profile`, lines 228-254). -/
structure StrikeAgg where
  strike : ℚ
  call_gex : ℚ
  put_gex : ℚ
  call_oi : ℤ
  put_oi : ℤ
  call_volume : ℤ
  put_volume : ℤ
deriving DecidableEq

def zsum (l : List ℤ) : ℤ := l.foldr (· + ·) 0

/-- total volume of one chain (`calls['volume'].fillna(0).sum() +
puts['volume'].fillna(0).sum()`, lines 219-220). -/
def chainVolume (cd : ChainData) : ℤ :=
  zsum (cd.calls.map (·.volume)) + zsum (cd.puts.map (·.volume))

def totalOptionsVolume (chains : List ChainData) : ℤ :=
  zsum (chains.map chainVolume)

/-- Accumulate one call row into the strike dictionary (modelled as an
association list in insertion order, keyed by the unique strike). -/
def addCallRow (c : ContractRow) : List StrikeAgg → List StrikeAgg
  | [] => [⟨c.strike, c.gex, 0, c.openInterest, 0, c.volume, 0⟩]
  | a :: rest =>
    if a.strike = c.strike then
      { a with call_gex := a.call_gex + c.gex, call_oi := a.call_oi + c.openInterest,
               call_volume := a.call_volume + c.volume } :: rest
    else a :: addCallRow c rest

/-- Accumulate one put row into the strike dictionary. -/
def addPutRow (p : ContractRow) : List StrikeAgg → List StrikeAgg
  | [] => [⟨p.strike, 0, p.gex, 0, p.openInterest, 0, p.volume⟩]
  | a :: rest =>
    if a.strike = p.strike then
      { a with put_gex := a.put_gex + p.gex, put_oi := a.put_oi + p.openInterest,
               put_volume := a.put_volume + p.volume } :: rest
    else a :: addPutRow p rest

/-- Lines 215-254: call rows then put rows of each expiration, in chain
order. -/
def addChain (m : List StrikeAgg) (cd : ChainData) : List StrikeAgg :=
  cd.puts.foldl (fun acc p => addPutRow p acc) (cd.calls.foldl (fun acc c => addCallRow c acc) m)

def aggregateStrikes (chains : List ChainData) : List StrikeAgg :=
  chains.foldl addChain []

/-! Ascending stable sort by a key (for `df.sort_values('strike')`; the
strike keys are unique, so stability is immaterial there and the result
agrees with any sorting algorithm). -/

instance instDecKeyLe {α K : Type} [LinearOrder K] (k : α → K) :
    DecidableRel (fun a b : α => k a ≤ k b) :=
  fun a b => inferInstanceAs (Decidable (k a ≤ k b))

instance instTotalKeyLe {α K : Type} [LinearOrder K] (k : α → K) :
    IsTotal α (fun a b : α => k a ≤ k b) :=
  ⟨fun a b => le_total (k a) (k b)⟩

instance instTransKeyLe {α K : Type} [LinearOrder K] (k : α → K) :
    IsTrans α (fun a b : α => k a ≤ k b) :=
  ⟨fun _ _ _ h1 h2 => le_trans h1 h2⟩

def sortAscBy {α K : Type} [LinearOrder K] (k : α → K) (l : List α) : List α :=
  List.insertionSort (fun a b : α => k a ≤ k b) l

theorem sorted_sortAscBy {α K : Type} [LinearOrder K] (k : α → K) (l : List α) :
    (sortAscBy k l).Sorted (fun a b : α => k a ≤ k b) :=
  List.sorted_insertionSort _ l

theorem perm_sortAscBy {α K : Type} [LinearOrder K] (k : α → K) (l : List α) :
    (sortAscBy k l).Perm l :=
  List.perm_insertionSort _ l

/-! ## `analyze_market_maker_behavior` (lines 336-388)

The `spread_activity` entry (a count based on a pandas `quantile(0.8)`
over each expiration's open interest) is not modelled: no verified claim
and no downstream consumer in the analyzer reads it.  The source's
`vol_oi_ratio` entry is named `vol_oi_frac` here.  Its `chains` argument
feeds only `spread_activity` and is dropped accordingly. -/

structure MMBehavior where
  delta_neutral_score : ℚ
  pin_risk : ℚ
  vol_oi_frac : ℚ
  institutional_flow : Bool
deriving DecidableEq

def analyze_market_maker_behavior (strike_df : List StrikeAgg) (current_price : ℚ) :
    MMBehavior :=
  let total_volume : ℤ := zsum (strike_df.map (·.call_volume)) + zsum (strike_df.map (·.put_volume))
  let atm := strike_df.filter fun a =>
    decide (current_price * 0.98 ≤ a.strike) && decide (a.strike ≤ current_price * 1.02)
  let delta_neutral_score : ℚ :=
    if atm.length = 0 then 0
    else ((zsum (atm.map (·.call_volume)) + zsum (atm.map (·.put_volume)) : ℤ) : ℚ) /
           max (total_volume : ℚ) 1 * 100
  let near := strike_df.filter fun a =>
    decide (current_price * 0.99 ≤ a.strike) && decide (a.strike ≤ current_price * 1.01)
  let pin_risk : ℚ :=
    if near.length = 0 then 0
    else (qsum (near.map (·.call_gex)) + |qsum (near.map (·.put_gex))|) /
           max (|qsum (strike_df.map (·.call_gex))| + |qsum (strike_df.map (·.put_gex))|) 1 * 100
  let total_oi : ℤ := zsum (strike_df.map (·.call_oi)) + zsum (strike_df.map (·.put_oi))
  let vof : ℚ := if 0 < total_oi then (total_volume : ℚ) / (total_oi : ℚ) else 0
  { delta_neutral_score := min 100 delta_neutral_score
    pin_risk := min 100 pin_risk
    vol_oi_frac := vof
    institutional_flow := decide (0.5 < vof) }

/-! ## `calculate_flow_toxicity` (lines 390-439) -/

/-- `pandas.Series.median`: middle of the sorted values, or the mean of
the two middle values for an even count.  Only used on non-empty series
(the source guards `len(calls) > 0`). -/
def median (l : List ℚ) : ℚ :=
  let s := List.insertionSort (fun a b : ℚ => a ≤ b) l
  if s.length % 2 = 1 then s.getD (s.length / 2) 0
  else (s.getD (s.length / 2 - 1) 0 + s.getD (s.length / 2) 0) / 2

def nsum (l : List ℕ) : ℕ := l.foldr (· + ·) 0

/-- Flow-toxicity heuristic; `hour` stands for the source's
`datetime.now().hour`. -/
def calculate_flow_toxicity (chains : List ChainData) (total_volume : ℤ) (hour : ℤ) : ℚ :=
  let large_trades : ℕ := nsum (chains.map fun cd =>
    cd.calls.countP (fun c => decide (1000 < c.openInterest)) +
    cd.puts.countP (fun p => decide (1000 < p.openInterest)))
  let weekly_preference : ℤ := zsum ((chains.filter fun cd => decide (cd.dte ≤ 7)).map chainVolume)
  let otm_activity : ℕ := nsum (chains.map fun cd =>
    if cd.calls.length = 0 then 0
    else
      let med := median (cd.calls.map (·.strike))
      cd.calls.countP (fun c => decide (med * 1.1 < c.strike)) +
      cd.puts.countP (fun p => decide (p.strike < med * 0.9)))
  let small_lots : ℕ := nsum (chains.map fun cd =>
    cd.calls.countP (fun c => decide (c.volume < 10)) +
    cd.puts.countP (fun p => decide (p.volume < 10)))
  let score : ℚ :=
    (if 5 < large_trades then 20 else 0) +
    (if 0 < total_volume ∧ 0.7 < (weekly_preference : ℚ) / max (total_volume : ℚ) 1 then -20 else 0) +
    (if 10 < otm_activity then -15 else 0) +
    (if 20 < small_lots then -10 else 0) +
    (if (9 ≤ hour ∧ hour ≤ 10) ∨ (15 ≤ hour ∧ hour ≤ 16) then 10 else 0)
  max (-100) (min 100 score)

/-! ## `calculate_dealer_pain` (lines 441-459) -/

def calculate_dealer_pain (net_gex distance_to_flip : ℚ) (mmb : MMBehavior) : ℚ :=
  let pain1 : ℚ := if net_gex < 0 then min 50 (|net_gex / 1e9| * 10) else 0
  let pain2 : ℚ :=
    if |distance_to_flip| < 1 then 30 else if |distance_to_flip| < 2 then 20 else 0
  let pain3 : ℚ := if 70 < mmb.pin_risk then 20 else 0
  let pain4 : ℚ := if mmb.institutional_flow then 10 else 0
  min 100 (pain1 + pain2 + pain3 + pain4)

/-! ## `calculate_gex_profile` (lines 200-312)

The `mm_status`, `vix` and `regime` entries are not modelled: `vix` is an
external network fetch and the two derived labels are read by no verified
claim.  `data_timestamp` is likewise dropped. -/

/-- `df[df['call_gex'] > 0].nlargest(5, 'call_gex')` (line 266). -/
def callWallsOf (rows : List StrikeAgg) : List StrikeAgg :=
  (sortDescBy (fun a => a.call_gex) (rows.filter fun a => decide (0 < a.call_gex))).take 5

/-- `df[df['put_gex'] < 0].nsmallest(5, 'put_gex')` (line 267). -/
def putWallsOf (rows : List StrikeAgg) : List StrikeAgg :=
  (sortAscBy (fun a => a.put_gex) (rows.filter fun a => decide (a.put_gex < 0))).take 5

structure GEXProfile where
  strike_rows : List StrikeAgg
  cum_gex : List ℚ
  current_price : ℚ
  gamma_flip : ℚ
  net_gex : ℚ
  total_call_gex : ℚ
  total_put_gex : ℚ
  call_walls : List StrikeAgg
  put_walls : List StrikeAgg
  total_volume : ℤ
  total_oi : ℤ
  distance_to_flip : ℚ
  mm_behavior : MMBehavior
  toxicity_score : ℚ
  dealer_pain : ℚ
deriving DecidableEq

def calculate_gex_profile (hour : ℤ) (options_data : Option OptionsData) :
    Option GEXProfile :=
  match options_data with
  | none => none
  | some od =>
    if od.chains.isEmpty then none
    else
      let rows := sortAscBy (fun a => a.strike) (aggregateStrikes od.chains)
      -- an empty aggregate frame makes the source's `sort_values('strike')`
      -- raise, which the enclosing blanket `except` turns into None
      if rows.isEmpty then none
      -- `current_price = 0` makes the float division computing
      -- `distance_to_flip` raise ZeroDivisionError, likewise None
      else if od.current_price = 0 then none
      else
        let cums := cumsum (rows.map fun a => a.call_gex + a.put_gex)
        let gamma_flip := find_gamma_flip ((rows.map (·.strike)).zip cums) od.current_price
        let total_call_gex := qsum (rows.map (·.call_gex))
        let total_put_gex := qsum (rows.map (·.put_gex))
        let net_gex := total_call_gex + total_put_gex
        let total_volume := totalOptionsVolume od.chains
        let distance_to_flip := (od.current_price - gamma_flip) / od.current_price * 100
        let mmb := analyze_market_maker_behavior rows od.current_price
        some
          { strike_rows := rows
            cum_gex := cums
            current_price := od.current_price
            gamma_flip := gamma_flip
            net_gex := net_gex
            total_call_gex := total_call_gex
            total_put_gex := total_put_gex
            call_walls := callWallsOf rows
            put_walls := putWallsOf rows
            total_volume := total_volume
            total_oi := zsum (rows.map (·.call_oi)) + zsum (rows.map (·.put_oi))
            distance_to_flip := distance_to_flip
            mm_behavior := mmb
            toxicity_score := calculate_flow_toxicity od.chains total_volume hour
            dealer_pain := calculate_dealer_pain net_gex distance_to_flip mmb }

/-! ## Invariants of the built profile (C2) -/

theorem qsum_cons (a : ℚ) (l : List ℚ) : qsum (a :: l) = a + qsum l := rfl

theorem qsum_map_add {α : Type} (f g : α → ℚ) (l : List α) :
    qsum (l.map fun a => f a + g a) = qsum (l.map f) + qsum (l.map g) := by
  induction l with
  | nil => simp [qsum]
  | cons x xs ih =>
    simp only [List.map_cons, qsum_cons, ih]
    ring

theorem flipLoop_bounds : ∀ (df : List (ℚ × ℚ)),
    ∀ f : ℚ, df.Pairwise (fun x y : ℚ × ℚ => x.1 ≤ y.1) → flipLoop df = some f →
    ∃ x ∈ df, ∃ y ∈ df, x.1 ≤ f ∧ f ≤ y.1 := by
  intro df
  induction df with
  | nil => intro f _ hf; simp [flipLoop] at hf
  | cons a xs ih =>
    intro f hsort hf
    cases xs with
    | nil =>
      obtain ⟨s1, c1⟩ := a
      simp [flipLoop] at hf
    | cons b rest =>
      obtain ⟨s1, c1⟩ := a
      obtain ⟨s2, c2⟩ := b
      rw [flipLoop] at hf
      have hs12 : s1 ≤ s2 :=
        (List.pairwise_cons.mp hsort).1 (s2, c2) (List.mem_cons_self _ _)
      by_cases hsc : (c1 ≤ 0 ∧ 0 ≤ c2) ∨ (0 ≤ c1 ∧ c2 ≤ 0)
      · rw [if_pos hsc] at hf
        by_cases hne : c2 ≠ c1
        · rw [if_pos hne] at hf
          have hfv : f = s1 + (|c1| / |c2 - c1|) * (s2 - s1) := (Option.some.inj hf).symm
          have habs : |c1| ≤ |c2 - c1| := by
            rcases hsc with ⟨h1, h2⟩ | ⟨h1, h2⟩
            · rw [abs_of_nonpos h1, abs_of_nonneg (by linarith : (0:ℚ) ≤ c2 - c1)]
              linarith
            · rw [abs_of_nonneg h1, abs_of_nonpos (by linarith : c2 - c1 ≤ 0)]
              linarith
          have hpos : 0 < |c2 - c1| := abs_pos.mpr (sub_ne_zero.mpr hne)
          have ht0 : 0 ≤ |c1| / |c2 - c1| := div_nonneg (abs_nonneg _) (le_of_lt hpos)
          have ht1 : |c1| / |c2 - c1| ≤ 1 := (div_le_one hpos).mpr habs
          refine ⟨(s1, c1), List.mem_cons_self _ _,
                  (s2, c2), List.mem_cons_of_mem _ (List.mem_cons_self _ _), ?_, ?_⟩
          · rw [hfv]; nlinarith
          · rw [hfv]; nlinarith
        · rw [if_neg hne] at hf
          obtain ⟨x, hx, y, hy, hb⟩ := ih f hsort.of_cons hf
          exact ⟨x, List.mem_cons_of_mem _ hx, y, List.mem_cons_of_mem _ hy, hb⟩
      · rw [if_neg hsc] at hf
        obtain ⟨x, hx, y, hy, hb⟩ := ih f hsort.of_cons hf
        exact ⟨x, List.mem_cons_of_mem _ hx, y, List.mem_cons_of_mem _ hy, hb⟩

theorem argminAbsStrike_go_mem (l : List (ℚ × ℚ)) : ∀ best : ℚ × ℚ,
    ∃ x, (x = best ∨ x ∈ l) ∧ argminAbsStrike.go best l = x.1 := by
  induction l with
  | nil => intro best; exact ⟨best, Or.inl rfl, rfl⟩
  | cons y ys ih =>
    intro best
    rw [argminAbsStrike.go]
    by_cases h : |y.2| < |best.2|
    · rw [if_pos h]
      obtain ⟨x, hx, he⟩ := ih y
      refine ⟨x, Or.inr ?_, he⟩
      exact hx.elim (fun e => e ▸ List.mem_cons_self _ _) (List.mem_cons_of_mem _)
    · rw [if_neg h]
      obtain ⟨x, hx, he⟩ := ih best
      exact ⟨x, hx.elim Or.inl (fun m => Or.inr (List.mem_cons_of_mem _ m)), he⟩

theorem argminAbsStrike_mem (df : List (ℚ × ℚ)) (s : ℚ)
    (h : argminAbsStrike df = some s) : ∃ x ∈ df, x.1 = s := by
  cases df with
  | nil => simp [argminAbsStrike] at h
  | cons a xs =>
    rw [argminAbsStrike] at h
    obtain ⟨x, hx, he⟩ := argminAbsStrike_go_mem xs a
    refine ⟨x, hx.elim (fun e => e ▸ List.mem_cons_self _ _) (List.mem_cons_of_mem _), ?_⟩
    rw [← he]
    exact Option.some.inj h

theorem find_gamma_flip_bounds (df : List (ℚ × ℚ)) (cp : ℚ)
    (hne : df ≠ []) (hsort : df.Pairwise (fun x y : ℚ × ℚ => x.1 ≤ y.1)) :
    ∃ x ∈ df, ∃ y ∈ df, x.1 ≤ find_gamma_flip df cp ∧ find_gamma_flip df cp ≤ y.1 := by
  rw [find_gamma_flip]
  cases hfl : flipLoop df with
  | some f => exact flipLoop_bounds df f hsort hfl
  | none =>
    cases hmin : argminAbsStrike df with
    | none =>
      cases df with
      | nil => exact absurd rfl hne
      | cons a xs => rw [argminAbsStrike] at hmin; exact absurd hmin (by simp)
    | some s =>
      obtain ⟨x, hx, he⟩ := argminAbsStrike_mem df s hmin
      exact ⟨x, hx, x, hx, le_of_eq he, le_of_eq he.symm⟩

/-- **C2.** For every built GEX profile: `net_gex` is the sum of the call
and put totals, each total is the sum of the per-strike contributions,
the last cumulative value equals `net_gex` (exactly, in the rational
model), and the gamma flip is bounded by strikes of the aggregate set
(hence lies within `[min strike, max strike]`); on an empty strike
sequence `find_gamma_flip` falls back to the current price. -/
theorem C2_profile_invariants :
    (∀ hour od p, calculate_gex_profile hour od = some p →
      p.net_gex = p.total_call_gex + p.total_put_gex ∧
      p.total_call_gex = qsum (p.strike_rows.map (·.call_gex)) ∧
      p.total_put_gex = qsum (p.strike_rows.map (·.put_gex)) ∧
      p.strike_rows ≠ [] ∧
      p.cum_gex.getLast? = some p.net_gex ∧
      ∃ x ∈ p.strike_rows, ∃ y ∈ p.strike_rows,
        x.strike ≤ p.gamma_flip ∧ p.gamma_flip ≤ y.strike) ∧
    (∀ cp, find_gamma_flip [] cp = cp) := by
  constructor
  · intro hour od p hp
    match od with
    | none => exact absurd hp (by simp [calculate_gex_profile])
    | some o =>
      rw [calculate_gex_profile] at hp
      by_cases h1 : o.chains.isEmpty
      · rw [if_pos h1] at hp
        exact absurd hp (by simp)
      rw [if_neg h1] at hp
      by_cases h2 : (sortAscBy (fun a => a.strike) (aggregateStrikes o.chains)).isEmpty
      · rw [if_pos h2] at hp
        exact absurd hp (by simp)
      rw [if_neg h2] at hp
      by_cases h3 : o.current_price = 0
      · rw [if_pos h3] at hp
        exact absurd hp (by simp)
      rw [if_neg h3] at hp
      have hp' := Option.some.inj hp
      subst hp'
      have hrowsne : sortAscBy (fun a => a.strike) (aggregateStrikes o.chains) ≠ [] := by
        intro he
        rw [he] at h2
        exact h2 rfl
      refine ⟨rfl, rfl, rfl, hrowsne, ?_, ?_⟩
      · show (cumsum ((sortAscBy (fun a => a.strike) (aggregateStrikes o.chains)).map
            fun a => a.call_gex + a.put_gex)).getLast? = _
        rw [cumsum_getLast? _ (by simpa using hrowsne)]
        exact congrArg some (qsum_map_add (fun a : StrikeAgg => a.call_gex)
          (fun a : StrikeAgg => a.put_gex) _)
      · have hsortrows := sorted_sortAscBy (fun a : StrikeAgg => a.strike)
          (aggregateStrikes o.chains)
        set rows := sortAscBy (fun a : StrikeAgg => a.strike) (aggregateStrikes o.chains)
          with hrowsdef
        have hlen : (rows.map (·.strike)).length ≤
            (cumsum (rows.map fun a => a.call_gex + a.put_gex)).length := by
          rw [cumsum_length, List.length_map, List.length_map]
        have hmapfst : ((rows.map (·.strike)).zip
            (cumsum (rows.map fun a => a.call_gex + a.put_gex))).map Prod.fst =
            rows.map (·.strike) := List.map_fst_zip _ _ hlen
        have hzipsort : ((rows.map (·.strike)).zip
            (cumsum (rows.map fun a => a.call_gex + a.put_gex))).Pairwise
            (fun x y : ℚ × ℚ => x.1 ≤ y.1) := by
          have h4 : (rows.map (·.strike)).Pairwise (fun a b : ℚ => a ≤ b) := by
            rw [List.pairwise_map]
            exact hsortrows
          rw [← hmapfst] at h4
          rw [List.pairwise_map] at h4
          exact h4
        have hzipne : (rows.map (·.strike)).zip
            (cumsum (rows.map fun a => a.call_gex + a.put_gex)) ≠ [] := by
          intro he
          have := congrArg List.length he
          rw [List.length_zip, cumsum_length, List.length_map, List.length_map,
            min_self] at this
          exact hrowsne (List.length_eq_zero.mp this)
        obtain ⟨x, hx, y, hy, hxl, hyl⟩ := find_gamma_flip_bounds _ o.current_price
          hzipne hzipsort
        have hxs : x.1 ∈ rows.map (·.strike) := (List.of_mem_zip hx).1
        have hys : y.1 ∈ rows.map (·.strike) := (List.of_mem_zip hy).1
        obtain ⟨rx, hrx, hrxe⟩ := List.mem_map.mp hxs
        obtain ⟨ry, hry, hrye⟩ := List.mem_map.mp hys
        exact ⟨rx, hrx, ry, hry, by rw [hrxe]; exact hxl, by rw [hrye]; exact hyl⟩
  · intro cp
    rfl

/-- A concrete snapshot: one expiration, one call at strike 100 and one
put at strike 95, spot 100. -/
def odC2 : OptionsData :=
  { chains := [{ calls := [⟨100, 5, 10, 3⟩], puts := [⟨95, -4, 8, 2⟩], dte := 5 }]
    current_price := 100 }

def pC2 : GEXProfile := (calculate_gex_profile 12 (some odC2)).get (by decide)

theorem C2_profile_invariants_witness :
    pC2.net_gex = pC2.total_call_gex + pC2.total_put_gex ∧
    pC2.cum_gex.getLast? = some pC2.net_gex := by
  have h : calculate_gex_profile 12 (some odC2) = some pC2 := (Option.some_get _).symm
  obtain ⟨h1, _, _, _, h5, _⟩ := C2_profile_invariants.1 12 (some odC2) pC2 h
  exact ⟨h1, h5⟩

/-! ## `black_scholes_gamma` (analyzer.py lines 59-69, C3)

The only component that uses transcendental functions; modelled over `ℝ`.
In the real-number model every value is finite, so the source's trailing
`np.isnan` guard (return 0 on a NaN result) and its blanket `except` are
vacuous: no guard case other than the explicit non-positivity tests can
fire. -/

/-- `scipy.stats.norm.pdf`: the standard normal density. -/
noncomputable def normPdf (x : ℝ) : ℝ :=
  Real.exp (-(x ^ 2) / 2) / Real.sqrt (2 * Real.pi)

noncomputable def black_scholes_gamma (S K T r sigma : ℝ) : ℝ :=
  if T ≤ 0 ∨ sigma ≤ 0 ∨ S ≤ 0 ∨ K ≤ 0 then 0
  else
    let d1 := (Real.log (S / K) + (r + 0.5 * sigma ^ 2) * T) / (sigma * Real.sqrt T)
    normPdf d1 / (S * sigma * Real.sqrt T)

/-- **C3.** `black_scholes_gamma` returns exactly 0 on every degenerate
input (`T ≤ 0`, `sigma ≤ 0`, `S ≤ 0` or `K ≤ 0`; the NaN guard is vacuous
in the real model), and on every valid input it returns
`normPdf d1 / (S * sigma * √T)` with the standard `d1`, a non-negative
(finite, real) value. -/
theorem C3_black_scholes_gamma :
    (∀ S K T r sigma : ℝ, (T ≤ 0 ∨ sigma ≤ 0 ∨ S ≤ 0 ∨ K ≤ 0) →
      black_scholes_gamma S K T r sigma = 0) ∧
    (∀ S K T r sigma : ℝ, 0 < S → 0 < K → 0 < T → 0 < sigma →
      black_scholes_gamma S K T r sigma =
        normPdf ((Real.log (S / K) + (r + 0.5 * sigma ^ 2) * T) / (sigma * Real.sqrt T)) /
          (S * sigma * Real.sqrt T) ∧
      0 ≤ black_scholes_gamma S K T r sigma) := by
  constructor
  · intro S K T r sigma h
    rw [black_scholes_gamma, if_pos h]
  · intro S K T r sigma hS hK hT hsigma
    have hguard : ¬ (T ≤ 0 ∨ sigma ≤ 0 ∨ S ≤ 0 ∨ K ≤ 0) := by
      push_neg
      exact ⟨hT, hsigma, hS, hK⟩
    constructor
    · rw [black_scholes_gamma, if_neg hguard]
    · rw [black_scholes_gamma, if_neg hguard]
      have hpdf : 0 ≤ normPdf ((Real.log (S / K) + (r + 0.5 * sigma ^ 2) * T) /
          (sigma * Real.sqrt T)) :=
        div_nonneg (le_of_lt (Real.exp_pos _)) (Real.sqrt_nonneg _)
      have hden : 0 ≤ S * sigma * Real.sqrt T :=
        mul_nonneg (mul_nonneg (le_of_lt hS) (le_of_lt hsigma)) (Real.sqrt_nonneg _)
      exact div_nonneg hpdf hden

theorem C3_black_scholes_gamma_witness :
    black_scholes_gamma 1 1 0 0 1 = 0 ∧ 0 ≤ black_scholes_gamma 1 1 1 0 1 :=
  ⟨C3_black_scholes_gamma.1 1 1 0 0 1 (Or.inl le_rfl),
   (C3_black_scholes_gamma.2 1 1 1 0 1 one_pos one_pos one_pos one_pos).2⟩

/-! ## Strategy configuration (analyzer.py lines 20-57)

Numeric entries of `self.strategies_config` and `self.trading_capital`.
Range-valued entries (`wall_distance_range = [1, 5]`,
`put_distance_range = [1, 8]`, `min_wall_spread = 3`) are split into
scalar endpoints.  DTE ranges appear only inside display strings and are
not modelled. -/

def trading_capital : ℚ := 100000
def negative_gex_threshold_spy : ℚ := -1e9
def negative_gex_threshold_qqq : ℚ := -500e6
def positive_gex_threshold_spy : ℚ := 2e9
def positive_gex_threshold_qqq : ℚ := 1e9
def premium_positive_gex_threshold : ℚ := 3e9
def wall_strength_threshold : ℚ := 500e6
def wall_distance_lo : ℚ := 1
def wall_distance_hi : ℚ := 5
def put_distance_lo : ℚ := 1
def put_distance_hi : ℚ := 8
def condor_min_gex_threshold : ℚ := 1e9
def min_wall_spread : ℚ := 3
def max_position_size_squeeze : ℚ := 0.03
def max_position_size_premium : ℚ := 0.05
def max_position_size_condor : ℚ := 0.02

/-! ## Signals (analyzer.py lines 474-740)

A `Signal` keeps the numeric and enumerable fields of the source's signal
dictionaries; the purely textual entries (`entry`, `target`, `stop`,
`dte`, `size`, `reasoning`, `regime`, `time_horizon`) are formatted
strings and are not modelled. -/

inductive SignalType
  | SQUEEZE_PLAY
  | PREMIUM_SELLING
  | IRON_CONDOR
  | VOLATILITY
  | WAIT
deriving DecidableEq

inductive SignalDirection
  | BUY_CALLS
  | BUY_PUTS
  | SELL_CALLS
  | SELL_PUTS
  | SELL_CONDOR
  | BUY_STRADDLE
  | SET_ALERT
  | NO_DATA
deriving DecidableEq

structure Signal where
  type : SignalType
  direction : SignalDirection
  confidence : ℚ
  expected_move : ℚ
  win_rate : ℚ
  position_size : ℚ
deriving DecidableEq

/-- `generate_squeeze_signals` (lines 550-617).  Note the source's
threshold choice: `SPY` gets the `_spy` thresholds and every other
symbol, QQQ included, gets the `_qqq` thresholds. -/
def generate_squeeze_signals (p : GEXProfile) (symbol : String) : List Signal :=
  let neg_threshold :=
    if symbol = "SPY" then negative_gex_threshold_spy else negative_gex_threshold_qqq
  let pos_threshold :=
    if symbol = "SPY" then positive_gex_threshold_spy else positive_gex_threshold_qqq
  let s1 : List Signal :=
    if p.net_gex < neg_threshold ∨ 70 < p.dealer_pain then
      [{ type := .SQUEEZE_PLAY, direction := .BUY_CALLS,
         confidence := round2 (min 95 (65 + p.dealer_pain / 4 + |p.distance_to_flip| * 2)),
         expected_move := |p.distance_to_flip| + 1,
         win_rate := 65,
         position_size := trading_capital * max_position_size_squeeze }]
    else []
  let s2 : List Signal :=
    if pos_threshold < p.net_gex ∧ |p.distance_to_flip| < 0.5 then
      [{ type := .SQUEEZE_PLAY, direction := .BUY_PUTS,
         confidence := round2 (min 75 (60 + p.net_gex / pos_threshold * 10 +
           (0.5 - |p.distance_to_flip|) * 20)),
         expected_move := 2,
         win_rate := 55,
         position_size := trading_capital * max_position_size_squeeze }]
    else []
  s1 ++ s2

/-- `generate_premium_signals` (lines 619-686). -/
def generate_premium_signals (p : GEXProfile) : List Signal :=
  let s1 : List Signal :=
    match p.call_walls with
    | [] => []
    | w :: _ =>
      if premium_positive_gex_threshold < p.net_gex then
        let wall_distance := (w.strike - p.current_price) / p.current_price * 100
        if wall_distance_lo < wall_distance ∧ wall_distance < wall_distance_hi then
          [{ type := .PREMIUM_SELLING, direction := .SELL_CALLS,
             confidence := round2 (min 80 (60 + w.call_gex / wall_strength_threshold * 10)),
             expected_move := wall_distance * 0.5,
             win_rate := 70,
             position_size := trading_capital * max_position_size_premium }]
        else []
      else []
  let s2 : List Signal :=
    match p.put_walls with
    | [] => []
    | w :: _ =>
      if 0 < p.net_gex then
        let wall_distance := (p.current_price - w.strike) / p.current_price * 100
        if put_distance_lo < wall_distance ∧ wall_distance < put_distance_hi then
          [{ type := .PREMIUM_SELLING, direction := .SELL_PUTS,
             confidence := round2 (min 75 (55 + |w.put_gex| / wall_strength_threshold * 10)),
             expected_move := wall_distance * 0.3,
             win_rate := 75,
             position_size := trading_capital * max_position_size_premium }]
        else []
      else []
  s1 ++ s2

/-- `generate_condor_signals` (lines 688-740).  The wing-bias label is a
display string and is not modelled. -/
def generate_condor_signals (p : GEXProfile) : List Signal :=
  match p.call_walls, p.put_walls with
  | cw :: _, pw :: _ =>
    if condor_min_gex_threshold < p.net_gex then
      let range_width := (cw.strike - pw.strike) / p.current_price * 100
      if min_wall_spread < range_width then
        [{ type := .IRON_CONDOR, direction := .SELL_CONDOR,
           confidence := round2 (min 85 (65 + (range_width - min_wall_spread) * 2)),
           expected_move := range_width * 0.2,
           win_rate := 80,
           position_size := trading_capital * max_position_size_condor }]
      else []
    else []
  | _, _ => []

/-- The fallback branch of `generate_all_signals` (lines 505-544). -/
def fallbackSignal (p : GEXProfile) : Signal :=
  if 60 < p.dealer_pain then
    { type := .VOLATILITY, direction := .BUY_STRADDLE, confidence := 60,
      expected_move := 2, win_rate := 55, position_size := trading_capital * 0.02 }
  else
    { type := .WAIT, direction := .SET_ALERT, confidence := 40,
      expected_move := 0, win_rate := 0, position_size := 0 }

/-- The no-data signal returned for an absent profile (lines 478-495). -/
def noDataSignal : Signal :=
  { type := .WAIT, direction := .NO_DATA, confidence := 0,
    expected_move := 0, win_rate := 0, position_size := 0 }

/-- The signal list of `generate_all_signals` as emitted, before the final
confidence sort: the three families concatenated, or the single fallback
signal when all three are empty. -/
def emittedSignals (p : GEXProfile) (symbol : String) : List Signal :=
  let signals := generate_squeeze_signals p symbol ++ generate_premium_signals p ++
    generate_condor_signals p
  if signals.isEmpty then [fallbackSignal p] else signals

/-- `generate_all_signals` (lines 474-548): no-data singleton for an
absent profile, otherwise the emitted signals sorted stably by descending
confidence. -/
def generate_all_signals : Option GEXProfile → String → List Signal
  | none, _ => [noDataSignal]
  | some p, symbol => sortDescBy (fun s : Signal => s.confidence) (emittedSignals p symbol)

/-! ## Claim C4: the signal-generation contract -/

/-- **C4.** `generate_all_signals` never returns an empty sequence: an
absent profile yields exactly the single WAIT no-data signal with
confidence 0; a present profile with no firing strategy family yields the
single fallback signal (VOLATILITY when `dealer_pain > 60`, WAIT
otherwise); and the output is always stably sorted by descending
confidence (a permutation of the emitted signals preserving, for each
confidence value, the emission order of its ties). -/
theorem C4_generate_all_signals :
    (∀ symbol, generate_all_signals none symbol = [noDataSignal]) ∧
    (noDataSignal.type = SignalType.WAIT ∧ noDataSignal.confidence = 0) ∧
    (∀ p symbol, generate_squeeze_signals p symbol = [] →
      generate_premium_signals p = [] → generate_condor_signals p = [] →
      generate_all_signals (some p) symbol = [fallbackSignal p] ∧
      (60 < p.dealer_pain → (fallbackSignal p).type = SignalType.VOLATILITY) ∧
      (p.dealer_pain ≤ 60 → (fallbackSignal p).type = SignalType.WAIT)) ∧
    (∀ op symbol, generate_all_signals op symbol ≠ []) ∧
    (∀ op symbol, (generate_all_signals op symbol).Sorted
      (fun a b : Signal => b.confidence ≤ a.confidence)) ∧
    (∀ p symbol, (generate_all_signals (some p) symbol).Perm (emittedSignals p symbol) ∧
      ∀ c : ℚ, (generate_all_signals (some p) symbol).filter
          (fun s => decide (s.confidence = c)) =
        (emittedSignals p symbol).filter (fun s => decide (s.confidence = c))) := by
  have hemitne : ∀ p symbol, emittedSignals p symbol ≠ [] := by
    intro p symbol
    simp only [emittedSignals]
    split_ifs with h
    · simp
    · simpa using h
  refine ⟨fun _ => rfl, ⟨rfl, rfl⟩, ?_, ?_, ?_, ?_⟩
  · intro p symbol h1 h2 h3
    refine ⟨?_, ?_, ?_⟩
    · show sortDescBy (fun s : Signal => s.confidence) (emittedSignals p symbol) = _
      simp only [emittedSignals, h1, h2, h3]
      rfl
    · intro h
      rw [fallbackSignal, if_pos h]
    · intro h
      rw [fallbackSignal, if_neg (not_lt.mpr h)]
  · intro op symbol
    match op with
    | none => simp [generate_all_signals]
    | some p =>
      show sortDescBy (fun s : Signal => s.confidence) (emittedSignals p symbol) ≠ []
      intro h
      have hperm := perm_sortDescBy (fun s : Signal => s.confidence) (emittedSignals p symbol)
      rw [h] at hperm
      exact hemitne p symbol hperm.symm.eq_nil
  · intro op symbol
    match op with
    | none => simp [generate_all_signals, List.Sorted]
    | some p => exact sorted_sortDescBy (fun s : Signal => s.confidence) _
  · intro p symbol
    exact ⟨perm_sortDescBy _ _, fun c => filter_sortDescBy _ c _⟩

/-- A profile on which no strategy family fires (zero exposure, zero
pain, no walls). -/
def pQuiet : GEXProfile :=
  { strike_rows := [], cum_gex := [], current_price := 100, gamma_flip := 100,
    net_gex := 0, total_call_gex := 0, total_put_gex := 0,
    call_walls := [], put_walls := [], total_volume := 0, total_oi := 0,
    distance_to_flip := 0, mm_behavior := ⟨0, 0, 0, false⟩,
    toxicity_score := 0, dealer_pain := 0 }

theorem C4_generate_all_signals_witness :
    generate_all_signals (some pQuiet) "AAPL" = [fallbackSignal pQuiet] ∧
    (fallbackSignal pQuiet).type = SignalType.WAIT :=
  ⟨(C4_generate_all_signals.2.2.1 pQuiet "AAPL" (by decide) (by decide) (by decide)).1,
   (C4_generate_all_signals.2.2.1 pQuiet "AAPL" (by decide) (by decide) (by decide)).2.2
     (by decide)⟩

/-! ## Claim C7: bound invariants -/

theorem round2_range_bounds {q : ℚ} (h0 : 0 ≤ q) (h100 : q ≤ 100) :
    0 ≤ round2 q ∧ round2 q ≤ 100 := by
  constructor
  · have h := @le_round2_of_le q 0 (by exact_mod_cast h0)
    exact_mod_cast h
  · have h := @round2_le_of_le q 100 (by exact_mod_cast h100)
    exact_mod_cast h

theorem dealer_pain_bounds (net d : ℚ) (mmb : MMBehavior) :
    0 ≤ calculate_dealer_pain net d mmb ∧ calculate_dealer_pain net d mmb ≤ 100 := by
  rw [calculate_dealer_pain]
  constructor
  · apply le_min (by norm_num)
    have h1 : (0:ℚ) ≤ if net < 0 then min 50 (|net / 1e9| * 10) else 0 := by
      split_ifs
      · exact le_min (by norm_num) (by positivity)
      · exact le_refl 0
    have h2 : (0:ℚ) ≤ if |d| < 1 then 30 else if |d| < 2 then 20 else 0 := by
      split_ifs <;> norm_num
    have h3 : (0:ℚ) ≤ if 70 < mmb.pin_risk then 20 else 0 := by
      split_ifs <;> norm_num
    have h4 : (0:ℚ) ≤ if mmb.institutional_flow then 10 else 0 := by
      split_ifs <;> norm_num
    linarith
  · exact min_le_left _ _

theorem toxicity_bounds (chains : List ChainData) (tv hour : ℤ) :
    -100 ≤ calculate_flow_toxicity chains tv hour ∧
    calculate_flow_toxicity chains tv hour ≤ 100 := by
  rw [calculate_flow_toxicity]
  exact ⟨le_max_left _ _, max_le (by norm_num) (min_le_left _ _)⟩

theorem mem_callWallsOf {rows : List StrikeAgg} {w : StrikeAgg}
    (h : w ∈ callWallsOf rows) : 0 < w.call_gex := by
  rw [callWallsOf] at h
  have h2 := List.take_subset 5 _ h
  have h3 := (perm_sortDescBy (fun a : StrikeAgg => a.call_gex) _).mem_iff.mp h2
  simpa using (List.mem_filter.mp h3).2

theorem mem_putWallsOf {rows : List StrikeAgg} {w : StrikeAgg}
    (h : w ∈ putWallsOf rows) : w.put_gex < 0 := by
  rw [putWallsOf] at h
  have h2 := List.take_subset 5 _ h
  have h3 := (perm_sortAscBy (fun a : StrikeAgg => a.put_gex) _).mem_iff.mp h2
  simpa using (List.mem_filter.mp h3).2

/-- Field facts of a successfully built profile used by the bound and
trigger claims. -/
theorem built_profile_facts (hour : ℤ) (od : Option OptionsData) (p : GEXProfile)
    (hp : calculate_gex_profile hour od = some p) :
    (0 ≤ p.dealer_pain ∧ p.dealer_pain ≤ 100) ∧
    (-100 ≤ p.toxicity_score ∧ p.toxicity_score ≤ 100) ∧
    (∀ w ∈ p.call_walls, 0 < w.call_gex) ∧
    (∀ w ∈ p.put_walls, w.put_gex < 0) := by
  match od with
  | none => exact absurd hp (by simp [calculate_gex_profile])
  | some o =>
    rw [calculate_gex_profile] at hp
    by_cases h1 : o.chains.isEmpty
    · rw [if_pos h1] at hp
      exact absurd hp (by simp)
    rw [if_neg h1] at hp
    by_cases h2 : (sortAscBy (fun a => a.strike) (aggregateStrikes o.chains)).isEmpty
    · rw [if_pos h2] at hp
      exact absurd hp (by simp)
    rw [if_neg h2] at hp
    by_cases h3 : o.current_price = 0
    · rw [if_pos h3] at hp
      exact absurd hp (by simp)
    rw [if_neg h3] at hp
    have hp' := Option.some.inj hp
    subst hp'
    refine ⟨dealer_pain_bounds _ _ _, toxicity_bounds _ _ _, ?_, ?_⟩
    · intro w hw
      exact mem_callWallsOf hw
    · intro w hw
      exact mem_putWallsOf hw

theorem mem_ite_singleton {α : Type} {c : Prop} [Decidable c] {s x : α}
    (h : s ∈ if c then [x] else ([] : List α)) : c ∧ s = x := by
  by_cases hc : c
  · rw [if_pos hc] at h
    exact ⟨hc, List.mem_singleton.mp h⟩
  · rw [if_neg hc] at h
    exact absurd h (List.not_mem_nil s)

theorem mem_ite_ite_singleton {α : Type} {A B : Prop} [Decidable A] [Decidable B] {s x : α}
    (h : s ∈ if A then (if B then [x] else []) else ([] : List α)) : (A ∧ B) ∧ s = x := by
  by_cases hA : A
  · rw [if_pos hA] at h
    exact mem_ite_singleton h |>.imp_left (And.intro hA)
  · rw [if_neg hA] at h
    exact absurd h (List.not_mem_nil s)

theorem squeeze_conf_bounds (p : GEXProfile) (symbol : String)
    (hpain : 0 ≤ p.dealer_pain) :
    ∀ s ∈ generate_squeeze_signals p symbol, 0 ≤ s.confidence ∧ s.confidence ≤ 100 := by
  intro s hs
  rw [generate_squeeze_signals] at hs
  rcases List.mem_append.mp hs with h | h
  · obtain ⟨hc, rfl⟩ := mem_ite_singleton h
    dsimp only
    apply round2_range_bounds
    · apply le_min (by norm_num)
      have := abs_nonneg p.distance_to_flip
      linarith
    · have := min_le_left (95:ℚ) (65 + p.dealer_pain / 4 + |p.distance_to_flip| * 2)
      linarith
  · obtain ⟨hc, rfl⟩ := mem_ite_singleton h
    dsimp only
    have hpos : (0:ℚ) < (if symbol = "SPY" then positive_gex_threshold_spy
        else positive_gex_threshold_qqq) := by
      split_ifs
      · rw [positive_gex_threshold_spy]; norm_num
      · rw [positive_gex_threshold_qqq]; norm_num
    have hdiv : (0:ℚ) ≤ p.net_gex / (if symbol = "SPY" then positive_gex_threshold_spy
        else positive_gex_threshold_qqq) :=
      div_nonneg (le_of_lt (lt_trans hpos hc.1)) (le_of_lt hpos)
    apply round2_range_bounds
    · apply le_min (by norm_num)
      have hd := hc.2
      nlinarith [abs_nonneg p.distance_to_flip]
    · have := min_le_left (75:ℚ) (60 + p.net_gex / (if symbol = "SPY" then
        positive_gex_threshold_spy else positive_gex_threshold_qqq) * 10 +
        (0.5 - |p.distance_to_flip|) * 20)
      linarith

theorem premium_conf_bounds (p : GEXProfile)
    (hcw : ∀ w ∈ p.call_walls, 0 < w.call_gex) :
    ∀ s ∈ generate_premium_signals p, 0 ≤ s.confidence ∧ s.confidence ≤ 100 := by
  intro s hs
  rw [generate_premium_signals] at hs
  rcases List.mem_append.mp hs with h | h
  · match hw : p.call_walls with
    | [] => rw [hw] at h; exact absurd h (List.not_mem_nil s)
    | w :: rest =>
      rw [hw] at h
      dsimp only at h
      have hwg : 0 < w.call_gex := hcw w (hw ▸ List.mem_cons_self _ _)
      obtain ⟨hc, rfl⟩ := mem_ite_ite_singleton h
      dsimp only
      have hws : (0:ℚ) ≤ w.call_gex / wall_strength_threshold * 10 := by
        rw [wall_strength_threshold]
        positivity
      apply round2_range_bounds
      · apply le_min (by norm_num)
        linarith
      · have := min_le_left (80:ℚ) (60 + w.call_gex / wall_strength_threshold * 10)
        linarith
  · match hw : p.put_walls with
    | [] => rw [hw] at h; exact absurd h (List.not_mem_nil s)
    | w :: rest =>
      rw [hw] at h
      dsimp only at h
      obtain ⟨hc, rfl⟩ := mem_ite_ite_singleton h
      dsimp only
      have hws : (0:ℚ) ≤ |w.put_gex| / wall_strength_threshold * 10 := by
        rw [wall_strength_threshold]
        positivity
      apply round2_range_bounds
      · apply le_min (by norm_num)
        linarith
      · have := min_le_left (75:ℚ) (55 + |w.put_gex| / wall_strength_threshold * 10)
        linarith

theorem condor_conf_bounds (p : GEXProfile) :
    ∀ s ∈ generate_condor_signals p, 0 ≤ s.confidence ∧ s.confidence ≤ 100 := by
  intro s hs
  rw [generate_condor_signals] at hs
  match hcwl : p.call_walls, hpwl : p.put_walls with
  | [], l => rw [hcwl] at hs; exact absurd hs (List.not_mem_nil s)
  | cw :: crest, [] => rw [hcwl, hpwl] at hs; exact absurd hs (List.not_mem_nil s)
  | cw :: crest, pw :: prest =>
    rw [hcwl, hpwl] at hs
    dsimp only at hs
    obtain ⟨hc, rfl⟩ := mem_ite_ite_singleton hs
    dsimp only
    rw [min_wall_spread] at hc
    apply round2_range_bounds
    · apply le_min (by norm_num)
      rw [min_wall_spread]
      linarith [hc.2]
    · have := min_le_left (85:ℚ) (65 + ((cw.strike - pw.strike) / p.current_price * 100 -
        min_wall_spread) * 2)
      linarith

/-- **C7.** After any input, `dealer_pain` lies in `[0, 100]`,
`toxicity_score` lies in `[-100, 100]`, and every signal generated from a
built profile (or from an absent one) has confidence in `[0, 100]`. -/
theorem C7_bound_invariants :
    (∀ net d mmb, 0 ≤ calculate_dealer_pain net d mmb ∧
      calculate_dealer_pain net d mmb ≤ 100) ∧
    (∀ chains tv hour, -100 ≤ calculate_flow_toxicity chains tv hour ∧
      calculate_flow_toxicity chains tv hour ≤ 100) ∧
    (∀ hour od p symbol, calculate_gex_profile hour od = some p →
      ∀ s ∈ generate_all_signals (some p) symbol,
        0 ≤ s.confidence ∧ s.confidence ≤ 100) ∧
    (∀ symbol, ∀ s ∈ generate_all_signals none symbol,
      0 ≤ s.confidence ∧ s.confidence ≤ 100) := by
  refine ⟨dealer_pain_bounds, toxicity_bounds, ?_, ?_⟩
  · intro hour od p symbol hp s hs
    obtain ⟨⟨hp0, hp100⟩, _, hcw, _⟩ := built_profile_facts hour od p hp
    have hs2 : s ∈ emittedSignals p symbol :=
      (perm_sortDescBy (fun s : Signal => s.confidence) _).mem_iff.mp hs
    rw [emittedSignals] at hs2
    split_ifs at hs2 with hemp
    · rcases List.mem_singleton.mp hs2 with rfl
      rw [fallbackSignal]
      split_ifs
      · exact ⟨by norm_num, by norm_num⟩
      · exact ⟨by norm_num, by norm_num⟩
    · rcases List.mem_append.mp hs2 with h | h
      · rcases List.mem_append.mp h with h' | h'
        · exact squeeze_conf_bounds p symbol hp0 s h'
        · exact premium_conf_bounds p hcw s h'
      · exact condor_conf_bounds p s h
  · intro symbol s hs
    rcases List.mem_singleton.mp hs with rfl
    exact ⟨by decide, by decide⟩

theorem C7_bound_invariants_witness :
    (0 ≤ calculate_dealer_pain (-5e9) 0 ⟨0, 80, 1, true⟩ ∧
      calculate_dealer_pain (-5e9) 0 ⟨0, 80, 1, true⟩ ≤ 100) ∧
    (0 ≤ ((generate_all_signals (some pC2) "SPY").headD noDataSignal).confidence ∧
      ((generate_all_signals (some pC2) "SPY").headD noDataSignal).confidence ≤ 100) :=
  ⟨C7_bound_invariants.1 (-5e9) 0 ⟨0, 80, 1, true⟩,
   C7_bound_invariants.2.2.1 12 (some odC2) pC2 "SPY" (Option.some_get _).symm
     ((generate_all_signals (some pC2) "SPY").headD noDataSignal) (by decide)⟩

/-! ## Claims C9 and C10: strategy triggers -/

/-- The symbol-dependent negative squeeze threshold (analyzer.py line
568): `SPY` gets the `_spy` value; every other symbol, QQQ included,
falls through to the `_qqq` value. -/
def squeezeNegThreshold (symbol : String) : ℚ :=
  if symbol = "SPY" then negative_gex_threshold_spy else negative_gex_threshold_qqq

/-- **C9 counterexample.** The claim says SPY and QQQ both receive
thresholds distinct from other symbols; in the code QQQ's threshold
equals that of any other non-SPY symbol (only SPY is special-cased). -/
theorem C9_counterexample :
    squeezeNegThreshold "QQQ" = squeezeNegThreshold "AAPL" ∧
    squeezeNegThreshold "SPY" ≠ squeezeNegThreshold "QQQ" := by decide

/-- **C9 (amended).** The squeeze long-calls signal fires exactly when
`net_gex` is below the symbol threshold or `dealer_pain > 70`, where SPY's
threshold is −1e9 and every other symbol (QQQ included) gets −5e8; and for
SPY with `net_gex = −1.5e9` (below its −1e9 threshold) a long-calls signal
is present with confidence ≥ 65. -/
theorem C9_squeeze_long_calls :
    (∀ p symbol, (∃ s ∈ generate_squeeze_signals p symbol,
        s.direction = SignalDirection.BUY_CALLS) ↔
      (p.net_gex < squeezeNegThreshold symbol ∨ 70 < p.dealer_pain)) ∧
    (squeezeNegThreshold "SPY" = -1e9 ∧
      ∀ symbol, symbol ≠ "SPY" → squeezeNegThreshold symbol = -500e6) ∧
    (∀ p, p.net_gex = -1.5e9 → 0 ≤ p.dealer_pain →
      ∃ s ∈ generate_squeeze_signals p "SPY",
        s.direction = SignalDirection.BUY_CALLS ∧ 65 ≤ s.confidence) := by
  refine ⟨?_, ⟨by rw [squeezeNegThreshold, if_pos rfl, negative_gex_threshold_spy], ?_⟩, ?_⟩
  · intro p symbol
    constructor
    · rintro ⟨s, hs, hdir⟩
      rw [generate_squeeze_signals] at hs
      rcases List.mem_append.mp hs with h | h
      · rw [squeezeNegThreshold]
        exact (mem_ite_singleton h).1
      · obtain ⟨hc, rfl⟩ := mem_ite_singleton h
        simp at hdir
    · intro hc
      rw [squeezeNegThreshold] at hc
      rw [generate_squeeze_signals]
      rw [if_pos hc]
      exact ⟨_, List.mem_append_left _ (List.mem_cons_self _ _), rfl⟩
  · intro symbol hsym
    rw [squeezeNegThreshold, if_neg hsym, negative_gex_threshold_qqq]
  · intro p hnet hpain
    have hcond : p.net_gex < (if ("SPY":String) = "SPY" then negative_gex_threshold_spy
        else negative_gex_threshold_qqq) ∨ 70 < p.dealer_pain := by
      left
      rw [if_pos rfl, negative_gex_threshold_spy, hnet]
      norm_num
    rw [generate_squeeze_signals]
    rw [if_pos hcond]
    refine ⟨_, List.mem_append_left _ (List.mem_cons_self _ _), rfl, ?_⟩
    have hlow : (65:ℚ) ≤ min 95 (65 + p.dealer_pain / 4 + |p.distance_to_flip| * 2) :=
      le_min (by norm_num) (by nlinarith [abs_nonneg p.distance_to_flip])
    have h := @le_round2_of_le _ 65 (by exact_mod_cast hlow)
    exact_mod_cast h

/-- A quiet profile with `net_gex = -1.5e9`, as in spec Scenario B. -/
def pSqueeze : GEXProfile := { pQuiet with net_gex := -1.5e9 }

theorem C9_squeeze_long_calls_witness :
    squeezeNegThreshold "AAPL" = -500e6 ∧
    ∃ s ∈ generate_squeeze_signals pSqueeze "SPY",
      s.direction = SignalDirection.BUY_CALLS ∧ 65 ≤ s.confidence :=
  ⟨C9_squeeze_long_calls.2.1.2 "AAPL" (by decide),
   C9_squeeze_long_calls.2.2 pSqueeze (by decide) (by decide)⟩

/-- **C10.** The sell-puts branch requires only `net_gex > 0` together
with a strongest put wall strictly inside the 1-8% band below spot; the
3e9 positive-GEX threshold gates only the sell-calls branch, so a profile
with `0 < net_gex ≤ 3e9` can emit a sell-puts signal while no sell-calls
signal is possible. -/
theorem C10_premium_sell_puts :
    (∀ p, (∃ s ∈ generate_premium_signals p, s.direction = SignalDirection.SELL_PUTS) ↔
      (0 < p.net_gex ∧ ∃ w rest, p.put_walls = w :: rest ∧
        put_distance_lo < (p.current_price - w.strike) / p.current_price * 100 ∧
        (p.current_price - w.strike) / p.current_price * 100 < put_distance_hi)) ∧
    (∀ p, p.net_gex ≤ premium_positive_gex_threshold →
      ∀ s ∈ generate_premium_signals p, s.direction ≠ SignalDirection.SELL_CALLS) ∧
    (∃ p, 0 < p.net_gex ∧ p.net_gex ≤ premium_positive_gex_threshold ∧
      (∃ s ∈ generate_premium_signals p, s.direction = SignalDirection.SELL_PUTS) ∧
      ∀ s ∈ generate_premium_signals p, s.direction ≠ SignalDirection.SELL_CALLS) := by
  refine ⟨?_, ?_, ?_⟩
  · intro p
    constructor
    · rintro ⟨s, hs, hdir⟩
      rw [generate_premium_signals] at hs
      rcases List.mem_append.mp hs with h | h
      · match hw : p.call_walls with
        | [] => rw [hw] at h; exact absurd h (List.not_mem_nil s)
        | w :: rest =>
          rw [hw] at h
          dsimp only at h
          obtain ⟨hc, rfl⟩ := mem_ite_ite_singleton h
          simp at hdir
      · match hw : p.put_walls with
        | [] => rw [hw] at h; exact absurd h (List.not_mem_nil s)
        | w :: rest =>
          rw [hw] at h
          dsimp only at h
          obtain ⟨⟨hA, hB⟩, rfl⟩ := mem_ite_ite_singleton h
          exact ⟨hA, w, rest, rfl, hB.1, hB.2⟩
    · rintro ⟨hnet, w, rest, hw, h1, h2⟩
      rw [generate_premium_signals]
      dsimp only
      rw [hw]
      dsimp only
      rw [if_pos hnet, if_pos ⟨h1, h2⟩]
      exact ⟨_, List.mem_append_right _ (List.mem_cons_self _ _), rfl⟩
  · intro p hnet s hs
    rw [generate_premium_signals] at hs
    rcases List.mem_append.mp hs with h | h
    · match hw : p.call_walls with
      | [] => rw [hw] at h; exact absurd h (List.not_mem_nil s)
      | w :: rest =>
        rw [hw] at h
        dsimp only at h
        obtain ⟨hc, rfl⟩ := mem_ite_ite_singleton h
        exact absurd hc.1 (not_lt.mpr hnet)
    · match hw : p.put_walls with
      | [] => rw [hw] at h; exact absurd h (List.not_mem_nil s)
      | w :: rest =>
        rw [hw] at h
        dsimp only at h
        obtain ⟨hc, rfl⟩ := mem_ite_ite_singleton h
        simp
  · exact ⟨{ pQuiet with net_gex := 1e9, put_walls := [⟨97, 0, -6e8, 0, 0, 0, 0⟩] },
      by decide, by decide, by decide, by decide⟩

/-- The C10 existence profile, reused by the witness. -/
def pPuts : GEXProfile :=
  { pQuiet with net_gex := 1e9, put_walls := [⟨97, 0, -6e8, 0, 0, 0, 0⟩] }

def sPutsC10 : Signal := (generate_premium_signals pPuts).headD noDataSignal

theorem C10_premium_sell_puts_witness :
    pPuts.net_gex ≤ premium_positive_gex_threshold ∧
    sPutsC10.direction ≠ SignalDirection.SELL_CALLS :=
  ⟨by decide, C10_premium_sell_puts.2.1 pPuts (by decide) sPutsC10 (by decide)⟩

/-! ## Scanner result rows and batch ranking (scanner.py, analyzer.py)

`ScannerRow` keeps the entries of a `SymbolScanner.scan_multiple_symbols`
result dictionary that the final sort and the ranking claims read.  The
worker pool delivers completed rows in arbitrary order; the model takes
the fully materialized row list as input and applies the single final
sort, exactly as the source does after its `as_completed` loop. -/

structure ScannerRow where
  symbol : String
  mm_vulnerability : ℚ
  opportunity_score : ℚ
  dealer_pain : ℚ
deriving DecidableEq

/-- The key of the final sort at scanner.py lines 319-321:
`(mm_vulnerability, opportunity_score)`, lexicographic. -/
def scannerSortKey (r : ScannerRow) : Lex (ℚ × ℚ) :=
  toLex (r.mm_vulnerability, r.opportunity_score)

/-- The sort key asserted by the claim: `(opportunity_score, dealer_pain)`. -/
def claimedSortKey (r : ScannerRow) : Lex (ℚ × ℚ) :=
  toLex (r.opportunity_score, r.dealer_pain)

/-- The final ranking step of `SymbolScanner.scan_multiple_symbols`: the
materialized result list sorted stably, descending by
`(mm_vulnerability, opportunity_score)`. -/
def scanner_sort_results (l : List ScannerRow) : List ScannerRow :=
  sortDescBy scannerSortKey l

def rowHighOpp : ScannerRow := ⟨"AAA", 0, 90, 0⟩

def rowHighVuln : ScannerRow := ⟨"BBB", 50, 10, 0⟩

/-- **C5 counterexample.**  The scanner's batch sort ranks by
`(mm_vulnerability, opportunity_score)`, not by
`(opportunity_score, dealer_pain)` as claimed: a row with opportunity
score 90 (and the same dealer pain) is placed after a row with
opportunity score 10 but higher MM vulnerability, so the output is not
descending in the claimed key. -/
theorem C5_counterexample :
    scanner_sort_results [rowHighOpp, rowHighVuln] = [rowHighVuln, rowHighOpp] ∧
    claimedSortKey rowHighVuln < claimedSortKey rowHighOpp ∧
    rowHighOpp.dealer_pain = rowHighVuln.dealer_pain := by decide

/-! ### The analyzer-side batch scan (analyzer.py lines 783-839) -/

structure ScanEntry where
  symbol : String
  gex_profile : Option GEXProfile
  signals : List Signal
  best_signal : Option Signal
deriving DecidableEq

/-- The per-symbol no-data result (analyzer.py lines 803-814). -/
def noDataEntry (symbol : String) : ScanEntry :=
  { symbol := symbol, gex_profile := none, signals := [noDataSignal], best_signal := none }

/-- `process_symbol` inside `DealerEdgeAnalyzer.scan_multiple_symbols`
(lines 788-814); the external chain fetch outcome is an explicit
`Option OptionsData` argument. -/
def process_symbol (hour : ℤ) (min_confidence : ℚ) (symbol : String)
    (fetched : Option OptionsData) : ScanEntry :=
  match calculate_gex_profile hour fetched with
  | some p =>
    let signals := generate_all_signals (some p) symbol
    let filtered := signals.filter fun s => decide (min_confidence ≤ s.confidence)
    { symbol := symbol
      gex_profile := some p
      signals := if filtered.isEmpty then signals else filtered
      best_signal := match filtered with
        | f :: _ => some f
        | [] => signals.head? }
  | none => noDataEntry symbol

/-- The key of the final sort at analyzer.py lines 834-837:
`(dealer_pain if profile else 0, best-signal confidence if any else 0)`. -/
def analyzerSortKey (e : ScanEntry) : Lex (ℚ × ℚ) :=
  toLex (match e.gex_profile with | some p => p.dealer_pain | none => 0,
         match e.best_signal with | some s => s.confidence | none => 0)

/-- `DealerEdgeAnalyzer.scan_multiple_symbols` over a list of per-symbol
fetch outcomes: every outcome is processed, then the materialized list is
sorted once, descending by `analyzerSortKey`. -/
def analyzer_scan_multiple_symbols (hour : ℤ) (min_confidence : ℚ)
    (outcomes : List (String × Option OptionsData)) : List ScanEntry :=
  sortDescBy analyzerSortKey (outcomes.map fun o => process_symbol hour min_confidence o.1 o.2)

/-- **C5 (amended).** Both batch scans materialize all per-symbol results
first and apply a single final stable descending sort — but the scanner
sorts by `(mm_vulnerability, opportunity_score)` and the analyzer's scan
by `(dealer_pain, best-signal confidence)`, not by
`(opportunity_score, dealer_pain)`: the output is sorted in the code's
key, is a permutation of the materialized rows, and rows with equal keys
keep their completion order. -/
theorem C5_batch_sort :
    (∀ l : List ScannerRow,
      (scanner_sort_results l).Sorted (fun a b => scannerSortKey b ≤ scannerSortKey a) ∧
      (scanner_sort_results l).Perm l ∧
      ∀ k, (scanner_sort_results l).filter (fun r => decide (scannerSortKey r = k)) =
        l.filter (fun r => decide (scannerSortKey r = k))) ∧
    (∀ hour minc outcomes,
      (analyzer_scan_multiple_symbols hour minc outcomes).Sorted
        (fun a b => analyzerSortKey b ≤ analyzerSortKey a) ∧
      (analyzer_scan_multiple_symbols hour minc outcomes).Perm
        (outcomes.map fun o => process_symbol hour minc o.1 o.2) ∧
      ∀ k, (analyzer_scan_multiple_symbols hour minc outcomes).filter
          (fun e => decide (analyzerSortKey e = k)) =
        (outcomes.map fun o => process_symbol hour minc o.1 o.2).filter
          (fun e => decide (analyzerSortKey e = k))) := by
  constructor
  · intro l
    exact ⟨sorted_sortDescBy scannerSortKey l, perm_sortDescBy scannerSortKey l,
      fun k => filter_sortDescBy scannerSortKey k l⟩
  · intro hour minc outcomes
    exact ⟨sorted_sortDescBy analyzerSortKey _, perm_sortDescBy analyzerSortKey _,
      fun k => filter_sortDescBy analyzerSortKey k _⟩

/-- **C6.** Batch scans never lose a symbol: `calculate_gex_profile`
returns an absent value (never a zeroed or garbage profile) when the
snapshot is absent or has no chains; the analyzer's batch scan produces
exactly one entry per symbol regardless of per-symbol outcomes; a symbol
whose data is unrecoverable appears as the WAIT/no-data entry with
confidence 0.  (Per-symbol exception isolation is reflected by the scan
being a total function of the per-symbol fetch outcomes.) -/
theorem C6_error_isolation :
    (∀ hour, calculate_gex_profile hour none = none) ∧
    (∀ hour od, od.chains = [] → calculate_gex_profile hour (some od) = none) ∧
    (∀ hour minc outcomes,
      (analyzer_scan_multiple_symbols hour minc outcomes).length = outcomes.length) ∧
    (∀ hour minc outcomes symbol od, (symbol, od) ∈ outcomes →
      calculate_gex_profile hour od = none →
      noDataEntry symbol ∈ analyzer_scan_multiple_symbols hour minc outcomes) ∧
    (noDataSignal.confidence = 0 ∧ noDataSignal.type = SignalType.WAIT) := by
  refine ⟨fun hour => rfl, ?_, ?_, ?_, rfl, rfl⟩
  · intro hour od h
    rw [calculate_gex_profile]
    rw [if_pos (by rw [h]; rfl)]
  · intro hour minc outcomes
    rw [analyzer_scan_multiple_symbols,
      (perm_sortDescBy analyzerSortKey _).length_eq, List.length_map]
  · intro hour minc outcomes symbol od hmem hnone
    apply (perm_sortDescBy analyzerSortKey _).mem_iff.mpr
    apply List.mem_map.mpr
    refine ⟨(symbol, od), hmem, ?_⟩
    rw [process_symbol]
    rw [hnone]

theorem C6_error_isolation_witness :
    noDataEntry "XYZ" ∈ analyzer_scan_multiple_symbols 12 50 [("XYZ", none)] :=
  C6_error_isolation.2.2.2.1 12 50 [("XYZ", none)] "XYZ" none (by decide) rfl

/-! ## Claim C8: the composite opportunity score (scanner.py lines 325-363) -/

/-- `max(s.get('confidence', 0) for s in signals)` over a non-empty list
(0 for an empty one, where the source never evaluates it). -/
def maxConf : List Signal → ℚ
  | [] => 0
  | s :: rest => rest.foldl (fun m x => max m x.confidence) s.confidence

theorem le_foldl_maxConf (rest : List Signal) : ∀ m : ℚ,
    m ≤ rest.foldl (fun m x => max m x.confidence) m := by
  induction rest with
  | nil => intro m; exact le_refl m
  | cons x xs ih =>
    intro m
    rw [List.foldl_cons]
    exact le_trans (le_max_left m x.confidence) (ih (max m x.confidence))

theorem foldl_maxConf_mono (rest : List Signal) : ∀ m1 m2 : ℚ, m1 ≤ m2 →
    rest.foldl (fun m x => max m x.confidence) m1 ≤
      rest.foldl (fun m x => max m x.confidence) m2 := by
  induction rest with
  | nil => intro m1 m2 h; exact h
  | cons x xs ih =>
    intro m1 m2 h
    rw [List.foldl_cons, List.foldl_cons]
    exact ih _ _ (max_le_max h (le_refl x.confidence))

theorem foldl_maxConf_le (rest : List Signal) : ∀ m c : ℚ, m ≤ c →
    (∀ s ∈ rest, s.confidence ≤ c) →
    rest.foldl (fun m x => max m x.confidence) m ≤ c := by
  induction rest with
  | nil => intro m c h _; exact h
  | cons x xs ih =>
    intro m c h hall
    rw [List.foldl_cons]
    exact ih _ c (max_le h (hall x (List.mem_cons_self _ _)))
      fun s hs => hall s (List.mem_cons_of_mem _ hs)

theorem maxConf_nonneg {signals : List Signal}
    (h : ∀ s ∈ signals, 0 ≤ s.confidence) : 0 ≤ maxConf signals := by
  match signals with
  | [] => exact le_refl 0
  | s :: rest =>
    exact le_trans (h s (List.mem_cons_self _ _)) (le_foldl_maxConf rest s.confidence)

theorem maxConf_le {signals : List Signal} {c : ℚ} (hc : 0 ≤ c)
    (h : ∀ s ∈ signals, s.confidence ≤ c) : maxConf signals ≤ c := by
  match signals with
  | [] => exact hc
  | s :: rest =>
    exact foldl_maxConf_le rest s.confidence c (h s (List.mem_cons_self _ _))
      fun x hx => h x (List.mem_cons_of_mem _ hx)

/-- `SymbolScanner.calculate_opportunity_score`.  The three
calendar-dependent bonuses (`is_opex_week`, `is_quad_witching_week`,
Friday-afternoon) are passed as explicit Booleans. -/
def calculate_opportunity_score (opex quad friPM : Bool)
    (gex_profile : Option GEXProfile) (signals : List Signal)
    (mm_vulnerability : ℚ) : ℚ :=
  match gex_profile with
  | none => mm_vulnerability * 0.5
  | some p =>
    let score1 := mm_vulnerability * 0.4 + p.dealer_pain * 0.2
    let score2 := score1 + (if signals.isEmpty then 0 else maxConf signals * 0.2)
    let d := |p.distance_to_flip|
    let score3 := score2 + (if d < 0.5 then 10 else if d < 1 then 7 else if d < 2 then 3 else 0)
    let score4 := score3 + (if opex then 5 else 0) + (if quad then 5 else 0) +
      (if friPM then 3 else 0)
    min 100 score4

/-- **C8.** With every component (dealer pain, each signal confidence, MM
vulnerability) in `[0, 100]` the opportunity score lies in `[0, 100]`
(also for an absent profile), and the score is monotone in each of MM
vulnerability, dealer pain, and best signal confidence separately. -/
theorem C8_opportunity_score :
    (∀ opex quad friPM p signals mv,
      0 ≤ p.dealer_pain → p.dealer_pain ≤ 100 → 0 ≤ mv → mv ≤ 100 →
      (∀ s ∈ signals, 0 ≤ s.confidence ∧ s.confidence ≤ 100) →
      0 ≤ calculate_opportunity_score opex quad friPM (some p) signals mv ∧
        calculate_opportunity_score opex quad friPM (some p) signals mv ≤ 100) ∧
    (∀ opex quad friPM signals mv, 0 ≤ mv → mv ≤ 100 →
      0 ≤ calculate_opportunity_score opex quad friPM none signals mv ∧
        calculate_opportunity_score opex quad friPM none signals mv ≤ 100) ∧
    (∀ opex quad friPM op signals v1 v2, v1 ≤ v2 →
      calculate_opportunity_score opex quad friPM op signals v1 ≤
        calculate_opportunity_score opex quad friPM op signals v2) ∧
    (∀ opex quad friPM (p : GEXProfile) signals mv d1 d2, d1 ≤ d2 →
      calculate_opportunity_score opex quad friPM
          (some { p with dealer_pain := d1 }) signals mv ≤
        calculate_opportunity_score opex quad friPM
          (some { p with dealer_pain := d2 }) signals mv) ∧
    (∀ opex quad friPM (p : GEXProfile) s1 s2 mv, s1 ≠ [] → s2 ≠ [] → maxConf s1 ≤ maxConf s2 →
      calculate_opportunity_score opex quad friPM (some p) s1 mv ≤
        calculate_opportunity_score opex quad friPM (some p) s2 mv) := by
  have hflip : ∀ d : ℚ, (0:ℚ) ≤
      (if d < 0.5 then 10 else if d < 1 then 7 else if d < 2 then 3 else 0) := by
    intro d
    split_ifs <;> norm_num
  have hflip13 : ∀ d : ℚ,
      (if d < 0.5 then (10:ℚ) else if d < 1 then 7 else if d < 2 then 3 else 0) ≤ 10 := by
    intro d
    split_ifs <;> norm_num
  refine ⟨?_, ?_, ?_, ?_, ?_⟩
  · intro opex quad friPM p signals mv hp0 hp1 hm0 hm1 hs
    rw [calculate_opportunity_score]
    constructor
    · apply le_min (by norm_num)
      have hsig : (0:ℚ) ≤ if signals.isEmpty then 0 else maxConf signals * 0.2 := by
        split_ifs
        · exact le_refl 0
        · have := maxConf_nonneg fun s hs' => (hs s hs').1
          linarith
      have h1 := hflip |p.distance_to_flip|
      have h2 : (0:ℚ) ≤ if opex then 5 else 0 := by split_ifs <;> norm_num
      have h3 : (0:ℚ) ≤ if quad then 5 else 0 := by split_ifs <;> norm_num
      have h4 : (0:ℚ) ≤ if friPM then 3 else 0 := by split_ifs <;> norm_num
      nlinarith
    · exact min_le_left _ _
  · intro opex quad friPM signals mv hm0 hm1
    rw [calculate_opportunity_score]
    constructor
    · nlinarith
    · nlinarith
  · intro opex quad friPM op signals v1 v2 h
    match op with
    | none =>
      rw [calculate_opportunity_score, calculate_opportunity_score]
      nlinarith
    | some p =>
      rw [calculate_opportunity_score, calculate_opportunity_score]
      apply min_le_min (le_refl 100)
      nlinarith
  · intro opex quad friPM p signals mv d1 d2 h
    show min 100 _ ≤ min 100 _
    apply min_le_min (le_refl 100)
    dsimp only
    nlinarith
  · intro opex quad friPM p s1 s2 mv h1 h2 hle
    have he1 : s1.isEmpty = false := by simpa using h1
    have he2 : s2.isEmpty = false := by simpa using h2
    show min 100 _ ≤ min 100 _
    apply min_le_min (le_refl 100)
    dsimp only
    rw [he1, he2]
    simp only [Bool.false_eq_true, if_false]
    nlinarith

theorem C8_opportunity_score_witness :
    (0 ≤ calculate_opportunity_score false false false (some pQuiet) [noDataSignal] 50 ∧
      calculate_opportunity_score false false false (some pQuiet) [noDataSignal] 50 ≤ 100) ∧
    calculate_opportunity_score false false false (some pQuiet) [noDataSignal] 30 ≤
      calculate_opportunity_score false false false (some pQuiet) [noDataSignal] 50 :=
  ⟨C8_opportunity_score.1 false false false pQuiet [noDataSignal] 50
      (by decide) (by decide) (by decide) (by decide)
      (by intro s hs; rw [List.mem_singleton.mp hs]; exact ⟨by decide, by decide⟩),
   C8_opportunity_score.2.2.1 false false false (some pQuiet) [noDataSignal] 30 50
      (by decide)⟩
